import Mathlib

/-!
Verification of the readwise-reader-time-capsule pipeline.

This file gives a shallow embedding in Lean 4 of the parts of the
repository that carry real invariants: the replace-sync diff
(`src/db/mongo_client.py`), the trim-to-size eviction, the content
extraction fallback chain (`src/relevance/content_extractor.py`), the
paginated fetcher with its rate-limit retry (`src/api/client.py`), the
five analyzer score normalisations (`src/relevance/*_analyzer.py`), the
weighted priority aggregation and skip discipline
(`src/analyze_articles.py`, `src/relevance/prioritization.py`), and the
low-priority (retention) endpoint.

Numbers follow the sources: Python floats are modelled as rationals
(reals where `math.exp` appears), `round(x, n)` as round-half-to-even at
`n` decimal digits.  External black boxes (trafilatura, textstat, regex
match counting, language detection) are function parameters of the
embedded definitions, matching the repository's treatment of them as
opaque collaborators.
-/

/-- Python's `round` to an integer: round half to even (banker's rounding). -/
def roundHalfEven (q : ℚ) : ℤ :=
  if Int.fract q = 1/2 then (if 2 ∣ ⌊q⌋ then ⌊q⌋ else ⌊q⌋ + 1) else round q

/-- Python's `round(x, 1)` on rationals. -/
def pyRound1 (q : ℚ) : ℚ := (roundHalfEven (q * 10) : ℚ) / 10

theorem floor_le_roundHalfEven (q : ℚ) : ⌊q⌋ ≤ roundHalfEven q := by
  unfold roundHalfEven
  split
  · split
    · exact le_refl _
    · omega
  · rw [round_eq]
    exact Int.floor_le_floor (by linarith)

theorem roundHalfEven_le_ceil (q : ℚ) : roundHalfEven q ≤ ⌈q⌉ := by
  unfold roundHalfEven
  split
  · rename_i hf
    have hne : Int.fract q ≠ 0 := by rw [hf]; norm_num
    have hlt : ⌊q⌋ < ⌈q⌉ := by
      have h1 : (⌊q⌋ : ℚ) ≤ q := Int.floor_le q
      have h2 : q ≤ (⌈q⌉ : ℚ) := Int.le_ceil q
      have h3 : (⌊q⌋ : ℚ) ≠ q := by
        intro h
        exact hne (by rw [Int.fract, ← h, Int.floor_intCast]; ring)
      exact_mod_cast lt_of_lt_of_le (lt_of_le_of_ne h1 h3) h2
    split <;> omega
  · rw [round_eq]
    have h2 : q + 1/2 < (⌈q⌉ : ℚ) + 1 := by
      have := Int.le_ceil q
      linarith
    have := Int.floor_lt.mpr (by exact_mod_cast h2 : q + 1/2 < ((⌈q⌉ + 1 : ℤ) : ℚ))
    omega

theorem roundHalfEven_intCast (n : ℤ) : roundHalfEven (n : ℚ) = n := by
  unfold roundHalfEven
  rw [Int.fract_intCast]
  norm_num

theorem pyRound1_bounds {q : ℚ} {a b : ℤ} (ha : (a : ℚ) ≤ q) (hb : q ≤ (b : ℚ)) :
    (a : ℚ) ≤ pyRound1 q ∧ pyRound1 q ≤ (b : ℚ) := by
  unfold pyRound1
  have hfl : (10 * a : ℤ) ≤ ⌊q * 10⌋ := Int.le_floor.mpr (by push_cast; linarith)
  have hce : ⌈q * 10⌉ ≤ (10 * b : ℤ) := Int.ceil_le.mpr (by push_cast; linarith)
  have h1 : (10 * a : ℤ) ≤ roundHalfEven (q * 10) :=
    le_trans hfl (floor_le_roundHalfEven _)
  have h2 : roundHalfEven (q * 10) ≤ (10 * b : ℤ) :=
    le_trans (roundHalfEven_le_ceil _) hce
  have h1' : ((10 * a : ℤ) : ℚ) ≤ (roundHalfEven (q * 10) : ℚ) := by exact_mod_cast h1
  have h2' : ((roundHalfEven (q * 10) : ℤ) : ℚ) ≤ ((10 * b : ℤ) : ℚ) := by exact_mod_cast h2
  push_cast at h1' h2'
  constructor
  · rw [le_div_iff₀ (by norm_num : (0:ℚ) < 10)]
    linarith
  · rw [div_le_iff₀ (by norm_num : (0:ℚ) < 10)]
    linarith

/-! ## SyncEngine: `MongoDBClient.sync_documents` (replace-sync) -/

/-- A fetched/persisted document as used by the sync diff: the `id` field is
the sole join key; `data` stands for the remaining payload fields. -/
structure SyncDoc where
  id : ℕ
  data : ℕ
deriving DecidableEq, Repr

namespace MongoDBClient

/-- `MongoDBClient.sync_documents`: computes existing and fetched id sets,
inserts fetched documents whose id is not persisted, deletes persisted
records whose id is absent from the fetch, and returns
`(insertedCount, deletedCount)` together with the resulting collection. -/
def sync_documents (coll documents : List SyncDoc) : List SyncDoc × ℕ × ℕ :=
  let existing_ids := (coll.map SyncDoc.id).dedup
  let new_ids := documents.map SyncDoc.id
  let to_insert := documents.filter (fun d => d.id ∉ existing_ids)
  let to_delete := existing_ids.filter (fun i => i ∉ new_ids)
  (coll.filter (fun r => r.id ∉ to_delete) ++ to_insert,
    to_insert.length, to_delete.length)

end MongoDBClient

/-- C1: for existing persisted id set `E` and fetched id set `N`, replace-sync
leaves the persisted id set equal to `N`, inserts exactly the fetched
documents whose id lies in `N \ E`, deletes exactly the persisted records
whose id lies in `E \ N`, and returns the pair `(|N \ E|, |E \ N|)`. -/
theorem sync_documents_replace_sync (coll documents : List SyncDoc)
    (hN : (documents.map SyncDoc.id).Nodup) :
    ((MongoDBClient.sync_documents coll documents).1.map SyncDoc.id).toFinset
        = (documents.map SyncDoc.id).toFinset ∧
    (MongoDBClient.sync_documents coll documents).2.1
        = ((documents.map SyncDoc.id).toFinset \ (coll.map SyncDoc.id).toFinset).card ∧
    (MongoDBClient.sync_documents coll documents).2.2
        = ((coll.map SyncDoc.id).toFinset \ (documents.map SyncDoc.id).toFinset).card ∧
    (MongoDBClient.sync_documents coll documents).1
        = coll.filter (fun r => r.id ∈ documents.map SyncDoc.id)
            ++ documents.filter (fun d => d.id ∉ coll.map SyncDoc.id) := by
  unfold MongoDBClient.sync_documents
  simp only
  have hsurv : coll.filter
        (fun r => r.id ∉ ((coll.map SyncDoc.id).dedup.filter
          (fun i => i ∉ documents.map SyncDoc.id)))
      = coll.filter (fun r => r.id ∈ documents.map SyncDoc.id) := by
    apply List.filter_congr
    intro r hr
    have hrE : r.id ∈ (coll.map SyncDoc.id).dedup := by
      rw [List.mem_dedup]
      exact List.mem_map_of_mem SyncDoc.id hr
    simp only [decide_eq_decide, List.mem_filter, List.mem_dedup, decide_eq_true_eq]
    constructor
    · intro h
      by_contra hn
      exact h ⟨List.mem_map_of_mem SyncDoc.id hr, hn⟩
    · intro h hc
      exact hc.2 h
  have hins : documents.filter (fun d => d.id ∉ (coll.map SyncDoc.id).dedup)
      = documents.filter (fun d => d.id ∉ coll.map SyncDoc.id) := by
    apply List.filter_congr
    intro d _
    simp [List.mem_dedup]
  refine ⟨?_, ?_, ?_, by rw [hsurv, hins]⟩
  · rw [hsurv, hins]
    ext a
    simp only [List.map_append, List.toFinset_append, Finset.mem_union,
      List.mem_toFinset, List.mem_map, List.mem_filter, decide_eq_true_eq]
    constructor
    · rintro (⟨r, ⟨_, hrN⟩, rfl⟩ | ⟨d, ⟨hd, _⟩, rfl⟩)
      · exact hrN
      · exact ⟨d, hd, rfl⟩
    · rintro ⟨d, hd, rfl⟩
      by_cases hE : ∃ r ∈ coll, r.id = d.id
      · rcases hE with ⟨r, hr, hrd⟩
        exact Or.inl ⟨r, ⟨hr, by rw [hrd]; exact ⟨d, hd, rfl⟩⟩, hrd⟩
      · exact Or.inr ⟨d, ⟨hd, hE⟩, rfl⟩
  · rw [hins]
    have hmap : (documents.filter (fun d => d.id ∉ coll.map SyncDoc.id)).map SyncDoc.id
        = (documents.map SyncDoc.id).filter (fun i => i ∉ coll.map SyncDoc.id) := by
      rw [List.filter_map]
      rfl
    have hlen : (documents.filter (fun d => d.id ∉ coll.map SyncDoc.id)).length
        = ((documents.map SyncDoc.id).filter (fun i => i ∉ coll.map SyncDoc.id)).length := by
      rw [← hmap, List.length_map]
    rw [hlen, ← List.toFinset_card_of_nodup (hN.filter _)]
    congr 1
    ext i
    simp [List.mem_filter, Finset.mem_sdiff, List.mem_toFinset]
  · have hnd : ((coll.map SyncDoc.id).dedup.filter
        (fun i => i ∉ documents.map SyncDoc.id)).Nodup :=
      (List.nodup_dedup _).filter _
    rw [← List.toFinset_card_of_nodup hnd]
    congr 1
    ext i
    simp [List.mem_filter, List.mem_dedup, Finset.mem_sdiff, List.mem_toFinset]

/-- Witness for C1: `E = {1,2,3}`, fetch ids `N = {2,3,4,5}` with payloads;
inserted `{4,5}` (2 documents), deleted `{1}` (1 record), final id set `N`. -/
theorem sync_documents_replace_sync_witness :
    ((([⟨1,10⟩, ⟨2,20⟩, ⟨3,30⟩] : List SyncDoc).map SyncDoc.id).Nodup) ∧
    ((MongoDBClient.sync_documents [⟨1,10⟩, ⟨2,20⟩, ⟨3,30⟩]
        [⟨2,21⟩, ⟨3,31⟩, ⟨4,41⟩, ⟨5,51⟩]).1.map SyncDoc.id).toFinset
      = (([⟨2,21⟩, ⟨3,31⟩, ⟨4,41⟩, ⟨5,51⟩] : List SyncDoc).map SyncDoc.id).toFinset := by
  refine ⟨by decide, ?_⟩
  exact (sync_documents_replace_sync [⟨1,10⟩, ⟨2,20⟩, ⟨3,30⟩]
    [⟨2,21⟩, ⟨3,31⟩, ⟨4,41⟩, ⟨5,51⟩] (by decide)).1

/-! ## SyncEngine eviction: `MongoDBClient.trim_collection_to_size` -/

/-- A persisted record as seen by the trim policy: MongoDB `_id` (`oid`),
an optional `saved_at` and a `created_at` timestamp. -/
structure TrimRec where
  oid : ℕ
  saved_at : Option ℤ
  created_at : ℤ
deriving DecidableEq, Repr

/-- Ascending `saved_at` order (used on records whose `saved_at` is set). -/
def savedLe (a b : TrimRec) : Prop := a.saved_at.getD 0 ≤ b.saved_at.getD 0

/-- Ascending `created_at` order. -/
def createdLe (a b : TrimRec) : Prop := a.created_at ≤ b.created_at

instance : DecidableRel savedLe := fun a b => by unfold savedLe; infer_instance

instance : DecidableRel createdLe := fun a b => by unfold createdLe; infer_instance

instance : IsTotal TrimRec savedLe := ⟨fun _ _ => le_total _ _⟩

instance : IsTotal TrimRec createdLe := ⟨fun _ _ => le_total _ _⟩

instance : IsTrans TrimRec savedLe := ⟨fun _ _ _ => le_trans⟩

instance : IsTrans TrimRec createdLe := ⟨fun _ _ _ => le_trans⟩

namespace MongoDBClient

/-- The oldest-documents selection of `trim_collection_to_size`: first the
oldest `docs_to_remove` records by ascending `saved_at` among records
carrying a `saved_at`; if that yields too few, the remainder by ascending
`created_at` among records not already selected. -/
def trimOldest (coll : List TrimRec) (k : ℕ) : List TrimRec :=
  let bySaved := (List.insertionSort savedLe
    (coll.filter (fun r => r.saved_at ≠ none))).take k
  if bySaved.length < k then
    bySaved ++ (List.insertionSort createdLe
      (coll.filter (fun r => r.oid ∉ bySaved.map TrimRec.oid))).take (k - bySaved.length)
  else bySaved

/-- `MongoDBClient.trim_collection_to_size`: caps a collection at
`max_documents`, deleting the selected oldest records and returning the
number removed (`0` when already within the cap). -/
def trim_collection_to_size (coll : List TrimRec) (max_documents : ℕ) :
    List TrimRec × ℕ :=
  if coll.length ≤ max_documents then (coll, 0)
  else
    let oldest_docs := trimOldest coll (coll.length - max_documents)
    if oldest_docs.isEmpty then (coll, 0)
    else (coll.filter (fun r => r.oid ∉ oldest_docs.map TrimRec.oid),
      oldest_docs.length)

theorem trimOldest_subset (coll : List TrimRec) (k : ℕ) :
    ∀ x ∈ trimOldest coll k, x ∈ coll := by
  intro x hx
  unfold trimOldest at hx
  simp only at hx
  split at hx
  · rcases List.mem_append.mp hx with h | h
    · exact List.mem_filter.mp ((List.mem_insertionSort savedLe).mp
        (List.take_subset _ _ h)) |>.1
    · exact List.mem_filter.mp ((List.mem_insertionSort createdLe).mp
        (List.take_subset _ _ h)) |>.1
  · exact List.mem_filter.mp ((List.mem_insertionSort savedLe).mp
      (List.take_subset _ _ hx)) |>.1

theorem trimOldest_nodup (coll : List TrimRec) (k : ℕ) (hnd : coll.Nodup) :
    (trimOldest coll k).Nodup := by
  unfold trimOldest
  have hS : ((List.insertionSort savedLe
      (coll.filter (fun r => r.saved_at ≠ none))).take k).Nodup :=
    (List.take_sublist _ _).nodup
      ((List.perm_insertionSort savedLe _).nodup_iff.mpr (hnd.filter _))
  simp only
  split
  · refine List.Nodup.append hS ?_ ?_
    · exact (List.take_sublist _ _).nodup
        ((List.perm_insertionSort createdLe _).nodup_iff.mpr (hnd.filter _))
    · intro x hx hx'
      have hxr := List.mem_filter.mp ((List.mem_insertionSort createdLe).mp
        (List.take_subset _ _ hx'))
      have : x.oid ∈ List.map TrimRec.oid ((List.insertionSort savedLe
          (coll.filter (fun r => r.saved_at ≠ none))).take k) :=
        List.mem_map_of_mem TrimRec.oid hx
      simp only [decide_eq_true_eq] at hxr
      exact hxr.2 this
  · exact hS

theorem trimOldest_length (coll : List TrimRec) (k : ℕ)
    (hid : (coll.map TrimRec.oid).Nodup) (hk : k ≤ coll.length) :
    (trimOldest coll k).length = k := by
  unfold trimOldest
  simp only
  by_cases h : ((List.insertionSort savedLe
      (coll.filter (fun r => r.saved_at ≠ none))).take k).length < k
  · rw [if_pos h]
    rw [List.length_take] at h
    have hlenS : (List.insertionSort savedLe
        (coll.filter (fun r => r.saved_at ≠ none))).length
        = (coll.filter (fun r => r.saved_at ≠ none)).length :=
      List.length_insertionSort _ _
    have hlt : (coll.filter (fun r => r.saved_at ≠ none)).length < k := by omega
    have hbAll : (List.insertionSort savedLe
        (coll.filter (fun r => r.saved_at ≠ none))).take k
        = List.insertionSort savedLe (coll.filter (fun r => r.saved_at ≠ none)) :=
      List.take_of_length_le (by omega)
    have hrest : coll.filter (fun r => r.oid ∉ ((List.insertionSort savedLe
          (coll.filter (fun r => r.saved_at ≠ none))).take k).map TrimRec.oid)
        = coll.filter (fun r => r.saved_at = none) := by
      apply List.filter_congr
      intro r hr
      rw [hbAll]
      simp only [decide_eq_decide, List.mem_map]
      constructor
      · intro hno
        by_contra hne
        exact hno ⟨r, (List.mem_insertionSort savedLe).mpr
          (List.mem_filter.mpr ⟨hr, by simpa using hne⟩), rfl⟩
      · rintro hnone ⟨x, hx, hxo⟩
        have hxS := List.mem_filter.mp ((List.mem_insertionSort savedLe).mp hx)
        have hxc : x = r := List.inj_on_of_nodup_map hid hxS.1 hr hxo
        rw [hxc] at hxS
        simp only [decide_eq_true_eq] at hxS
        exact hxS.2 hnone
    have hsplit : coll.length = (coll.filter (fun r => r.saved_at ≠ none)).length
        + (coll.filter (fun r => r.saved_at = none)).length := by
      have h1 := List.length_eq_length_filter_add (l := coll)
        (fun r => decide (r.saved_at ≠ none))
      have h2 : coll.filter (fun r => !decide (r.saved_at ≠ none))
          = coll.filter (fun r => r.saved_at = none) := by
        apply List.filter_congr
        intro r _
        cases r.saved_at <;> simp
      rw [h2] at h1
      exact h1
    simp only [List.length_append, List.length_take, hrest, List.length_insertionSort]
    omega
  · rw [if_neg h]
    rw [List.length_take] at h ⊢
    omega

theorem trimOldest_saved_le (coll : List TrimRec) (k : ℕ)
    (hid : (coll.map TrimRec.oid).Nodup) :
    ∀ r ∈ trimOldest coll k, r.saved_at ≠ none →
    ∀ s ∈ coll, s ∉ trimOldest coll k → s.saved_at ≠ none → savedLe r s := by
  unfold trimOldest
  simp only
  by_cases h : ((List.insertionSort savedLe
      (coll.filter (fun r => r.saved_at ≠ none))).take k).length < k
  · rw [if_pos h] at *
    rw [List.length_take] at h
    have hbAll : (List.insertionSort savedLe
        (coll.filter (fun r => r.saved_at ≠ none))).take k
        = List.insertionSort savedLe (coll.filter (fun r => r.saved_at ≠ none)) :=
      List.take_of_length_le (by omega)
    intro r _ _ s hscoll hsO hss
    exfalso
    apply hsO
    apply List.mem_append_left
    rw [hbAll]
    exact (List.mem_insertionSort savedLe).mpr
      (List.mem_filter.mpr ⟨hscoll, by simpa using hss⟩)
  · rw [if_neg h]
    intro r hrO _ s hscoll hsO hss
    have hsS : s ∈ List.insertionSort savedLe
        (coll.filter (fun r => r.saved_at ≠ none)) :=
      (List.mem_insertionSort savedLe).mpr
        (List.mem_filter.mpr ⟨hscoll, by simpa using hss⟩)
    have hsdrop : s ∈ (List.insertionSort savedLe
        (coll.filter (fun r => r.saved_at ≠ none))).drop k := by
      have := List.take_append_drop k (List.insertionSort savedLe
        (coll.filter (fun r => r.saved_at ≠ none)))
      rcases List.mem_append.mp (this ▸ hsS) with h' | h'
      · exact absurd h' hsO
      · exact h'
    exact (List.sorted_insertionSort savedLe _).rel_of_mem_take_of_mem_drop hrO hsdrop

theorem trimOldest_created_le (coll : List TrimRec) (k : ℕ)
    (hid : (coll.map TrimRec.oid).Nodup) :
    ∀ r ∈ trimOldest coll k, r.saved_at = none →
    ∀ s ∈ coll, s ∉ trimOldest coll k → s.saved_at = none → createdLe r s := by
  unfold trimOldest
  simp only
  have hbSsub : ∀ x ∈ (List.insertionSort savedLe
      (coll.filter (fun r => r.saved_at ≠ none))).take k, x.saved_at ≠ none := by
    intro x hx
    have := List.mem_filter.mp ((List.mem_insertionSort savedLe).mp
      (List.take_subset _ _ hx))
    simpa using this.2
  by_cases h : ((List.insertionSort savedLe
      (coll.filter (fun r => r.saved_at ≠ none))).take k).length < k
  · rw [if_pos h]
    intro r hrO hrs s hscoll hsO hss
    have hrC : r ∈ (List.insertionSort createdLe
        (coll.filter (fun x => x.oid ∉ ((List.insertionSort savedLe
          (coll.filter (fun r => r.saved_at ≠ none))).take k).map TrimRec.oid))).take
        (k - ((List.insertionSort savedLe
          (coll.filter (fun r => r.saved_at ≠ none))).take k).length) := by
      rcases List.mem_append.mp hrO with h' | h'
      · exact absurd hrs (hbSsub r h')
      · exact h'
    have hsrest : s ∈ coll.filter (fun x => x.oid ∉ ((List.insertionSort savedLe
        (coll.filter (fun r => r.saved_at ≠ none))).take k).map TrimRec.oid) := by
      refine List.mem_filter.mpr ⟨hscoll, ?_⟩
      simp only [decide_eq_true_eq, List.mem_map]
      rintro ⟨x, hx, hxo⟩
      have hxcoll : x ∈ coll :=
        (List.mem_filter.mp ((List.mem_insertionSort savedLe).mp
          (List.take_subset _ _ hx))).1
      have hxs : x = s := List.inj_on_of_nodup_map hid hxcoll hscoll hxo
      exact hbSsub x hx (hxs ▸ hss)
    have hsS : s ∈ List.insertionSort createdLe
        (coll.filter (fun x => x.oid ∉ ((List.insertionSort savedLe
          (coll.filter (fun r => r.saved_at ≠ none))).take k).map TrimRec.oid)) :=
      (List.mem_insertionSort createdLe).mpr hsrest
    have hsdrop : s ∈ (List.insertionSort createdLe
        (coll.filter (fun x => x.oid ∉ ((List.insertionSort savedLe
          (coll.filter (fun r => r.saved_at ≠ none))).take k).map TrimRec.oid))).drop
        (k - ((List.insertionSort savedLe
          (coll.filter (fun r => r.saved_at ≠ none))).take k).length) := by
      have := List.take_append_drop (k - ((List.insertionSort savedLe
        (coll.filter (fun r => r.saved_at ≠ none))).take k).length)
        (List.insertionSort createdLe
          (coll.filter (fun x => x.oid ∉ ((List.insertionSort savedLe
            (coll.filter (fun r => r.saved_at ≠ none))).take k).map TrimRec.oid)))
      rcases List.mem_append.mp (this ▸ hsS) with h' | h'
      · exact absurd (List.mem_append_right _ h') hsO
      · exact h'
    exact (List.sorted_insertionSort createdLe _).rel_of_mem_take_of_mem_drop hrC hsdrop
  · rw [if_neg h]
    intro r hrO hrs _ _ _ _
    exact absurd hrs (hbSsub r hrO)

end MongoDBClient

/-- C4: trim-to-size with cap `C` removes nothing when the collection holds at
most `C` records; otherwise it removes exactly `size - C` records — oldest
first by ascending `saved_at` among records carrying one, with any remainder
oldest first by ascending `created_at` among the records not already
selected — leaving exactly `C` records, so an immediate second invocation
removes `0`. -/
theorem trim_collection_to_size_spec (coll : List TrimRec) (C : ℕ)
    (hid : (coll.map TrimRec.oid).Nodup) :
    (coll.length ≤ C → MongoDBClient.trim_collection_to_size coll C = (coll, 0)) ∧
    (C < coll.length →
      (MongoDBClient.trim_collection_to_size coll C).2 = coll.length - C ∧
      (MongoDBClient.trim_collection_to_size coll C).1.length = C ∧
      MongoDBClient.trim_collection_to_size
          (MongoDBClient.trim_collection_to_size coll C).1 C
        = ((MongoDBClient.trim_collection_to_size coll C).1, 0) ∧
      (∀ r ∈ coll, r ∉ (MongoDBClient.trim_collection_to_size coll C).1 →
        r.saved_at ≠ none →
        ∀ s ∈ (MongoDBClient.trim_collection_to_size coll C).1, s.saved_at ≠ none →
          savedLe r s) ∧
      (∀ r ∈ coll, r ∉ (MongoDBClient.trim_collection_to_size coll C).1 →
        r.saved_at = none →
        ∀ s ∈ (MongoDBClient.trim_collection_to_size coll C).1, s.saved_at = none →
          createdLe r s)) := by
  have hcoll : coll.Nodup := hid.of_map _
  have htrim0 : ∀ l : List TrimRec, l.length ≤ C →
      MongoDBClient.trim_collection_to_size l C = (l, 0) := by
    intro l h
    unfold MongoDBClient.trim_collection_to_size
    rw [if_pos h]
  constructor
  · exact htrim0 coll
  · intro hlt
    have hk : coll.length - C ≤ coll.length := Nat.sub_le _ _
    have hOlen := MongoDBClient.trimOldest_length coll (coll.length - C) hid hk
    have hOsub := MongoDBClient.trimOldest_subset coll (coll.length - C)
    have hOnd := MongoDBClient.trimOldest_nodup coll (coll.length - C) hcoll
    have hnil : MongoDBClient.trimOldest coll (coll.length - C) ≠ [] := by
      intro hn
      rw [hn] at hOlen
      simp at hOlen
      omega
    have hTrim : MongoDBClient.trim_collection_to_size coll C
        = (coll.filter (fun r =>
            r.oid ∉ (MongoDBClient.trimOldest coll (coll.length - C)).map TrimRec.oid),
          (MongoDBClient.trimOldest coll (coll.length - C)).length) := by
      unfold MongoDBClient.trim_collection_to_size
      rw [if_neg (by omega)]
      simp only
      rw [if_neg (by simp [List.isEmpty_iff, hnil])]
    -- membership characterisation of the surviving collection
    have hchar : ∀ r ∈ coll,
        (r ∈ (MongoDBClient.trim_collection_to_size coll C).1 ↔
          r ∉ MongoDBClient.trimOldest coll (coll.length - C)) := by
      intro r hr
      rw [hTrim]
      simp only [List.mem_filter, decide_eq_true_eq, List.mem_map]
      constructor
      · rintro ⟨_, hno⟩ hmem
        exact hno ⟨r, hmem, rfl⟩
      · intro hno
        refine ⟨hr, ?_⟩
        rintro ⟨x, hx, hxo⟩
        have hxr : x = r := List.inj_on_of_nodup_map hid (hOsub x hx) hr hxo
        exact hno (hxr ▸ hx)
    have hlen1 : (MongoDBClient.trim_collection_to_size coll C).1.length = C := by
      rw [hTrim]
      simp only
      have hres_nd : (coll.filter (fun r =>
          r.oid ∉ (MongoDBClient.trimOldest coll (coll.length - C)).map
            TrimRec.oid)).Nodup := hcoll.filter _
      have hsubF : (MongoDBClient.trimOldest coll (coll.length - C)).toFinset
          ⊆ coll.toFinset := by
        intro x hx
        rw [List.mem_toFinset] at hx ⊢
        exact hOsub x hx
      have hresF : (coll.filter (fun r =>
            r.oid ∉ (MongoDBClient.trimOldest coll (coll.length - C)).map
              TrimRec.oid)).toFinset
          = coll.toFinset \ (MongoDBClient.trimOldest coll (coll.length - C)).toFinset := by
        ext r
        simp only [List.mem_toFinset, List.mem_filter, Finset.mem_sdiff,
          decide_eq_true_eq, List.mem_map]
        constructor
        · rintro ⟨hr, hno⟩
          exact ⟨hr, fun hmem => hno ⟨r, hmem, rfl⟩⟩
        · rintro ⟨hr, hno⟩
          refine ⟨hr, ?_⟩
          rintro ⟨x, hx, hxo⟩
          have hxr : x = r := List.inj_on_of_nodup_map hid (hOsub x hx) hr hxo
          exact hno (hxr ▸ hx)
      rw [← List.toFinset_card_of_nodup hres_nd, hresF, Finset.card_sdiff hsubF,
        List.toFinset_card_of_nodup hcoll, List.toFinset_card_of_nodup hOnd, hOlen]
      omega
    refine ⟨by rw [hTrim]; simp only; exact hOlen, hlen1, ?_, ?_, ?_⟩
    · exact htrim0 _ (le_of_eq hlen1)
    · intro r hr hrnot hrs s hs hss
      have hrO : r ∈ MongoDBClient.trimOldest coll (coll.length - C) := by
        by_contra hno
        exact hrnot ((hchar r hr).mpr hno)
      have hscoll : s ∈ coll := by
        rw [hTrim] at hs
        exact (List.mem_filter.mp hs).1
      have hsO : s ∉ MongoDBClient.trimOldest coll (coll.length - C) :=
        (hchar s hscoll).mp hs
      exact MongoDBClient.trimOldest_saved_le coll (coll.length - C) hid
        r hrO hrs s hscoll hsO hss
    · intro r hr hrnot hrs s hs hss
      have hrO : r ∈ MongoDBClient.trimOldest coll (coll.length - C) := by
        by_contra hno
        exact hrnot ((hchar r hr).mpr hno)
      have hscoll : s ∈ coll := by
        rw [hTrim] at hs
        exact (List.mem_filter.mp hs).1
      have hsO : s ∉ MongoDBClient.trimOldest coll (coll.length - C) :=
        (hchar s hscoll).mp hs
      exact MongoDBClient.trimOldest_created_le coll (coll.length - C) hid
        r hrO hrs s hscoll hsO hss

/-- Witness for C4: seven records, cap five — exactly two removed (the two
oldest by `saved_at`), five remain. -/
theorem trim_collection_to_size_spec_witness :
    (MongoDBClient.trim_collection_to_size
      [⟨1, some 50, 1⟩, ⟨2, some 10, 2⟩, ⟨3, none, 3⟩, ⟨4, some 20, 4⟩,
       ⟨5, some 40, 5⟩, ⟨6, none, 6⟩, ⟨7, some 30, 7⟩] 5).2 = 2 ∧
    (MongoDBClient.trim_collection_to_size
      [⟨1, some 50, 1⟩, ⟨2, some 10, 2⟩, ⟨3, none, 3⟩, ⟨4, some 20, 4⟩,
       ⟨5, some 40, 5⟩, ⟨6, none, 6⟩, ⟨7, some 30, 7⟩] 5).1.length = 5 := by
  have h := (trim_collection_to_size_spec
    [⟨1, some 50, 1⟩, ⟨2, some 10, 2⟩, ⟨3, none, 3⟩, ⟨4, some 20, 4⟩,
     ⟨5, some 40, 5⟩, ⟨6, none, 6⟩, ⟨7, some 30, 7⟩] 5 (by decide)).2 (by decide)
  exact ⟨h.1, h.2.1⟩

/-! ## ContentExtractor: `ContentExtractor.extract_content` -/

/-- Python truthiness of an optional string: `None` and `""` are falsy. -/
def pyTruthy : Option String → Bool
  | none => false
  | some s => !s.isEmpty

/-- The article fields consulted by the extraction fallback chain. -/
structure Article where
  id : ℕ
  html_content : Option String
  source_url : Option String
  content : Option String
  summary : Option String
deriving DecidableEq, Repr

namespace ContentExtractor

/-- Strategy 0 of `extract_content`: run trafilatura (`traf`, opaque) on the
cached raw HTML body; yields nothing when the body is absent/empty, when
extraction fails, or when it extracts an empty string. -/
def step_html (traf : String → Option String) (a : Article) : Option String :=
  match a.html_content with
  | some h =>
    if h.isEmpty then none
    else
      match traf h with
      | some c => if c.isEmpty then none else some c
      | none => none
  | none => none

/-- Strategy 1 of `extract_content`: `_fetch_from_url` on the source URL
(`fetchUrl`, opaque: returns `none` on timeout, HTTP error, any other
failure, or empty extraction). -/
def step_url (fetchUrl : String → Option String) (a : Article) : Option String :=
  match a.source_url with
  | some u =>
    if u.isEmpty then none
    else
      match fetchUrl u with
      | some c => if c.isEmpty then none else some c
      | none => none
  | none => none

/-- `ContentExtractor.extract_content`: deterministic fallback chain —
cached HTML, then source-URL fetch, then the `content` field, then the
`summary` field; `none` when every step yields nothing. -/
def extract_content (traf fetchUrl : String → Option String) (a : Article) :
    Option String :=
  match step_html traf a with
  | some c => some c
  | none =>
    match step_url fetchUrl a with
    | some c => some c
    | none =>
      if pyTruthy a.content then a.content
      else if pyTruthy a.summary then a.summary
      else none

end ContentExtractor

/-- C5: when the cached-HTML step and the source-URL fetch both yield
nothing and the `content` field is non-empty, extraction returns the
`content` field verbatim and is independent of the `summary` field; the
summary is consulted only when content also yields nothing. -/
theorem extract_content_prefers_content (traf fetchUrl : String → Option String)
    (a : Article)
    (h0 : ContentExtractor.step_html traf a = none)
    (h1 : ContentExtractor.step_url fetchUrl a = none) :
    (pyTruthy a.content = true →
      ContentExtractor.extract_content traf fetchUrl a = a.content ∧
      ∀ s : Option String,
        ContentExtractor.extract_content traf fetchUrl { a with summary := s }
          = a.content) ∧
    (pyTruthy a.content = false →
      ContentExtractor.extract_content traf fetchUrl a
        = if pyTruthy a.summary then a.summary else none) := by
  have h0' : ∀ s, ContentExtractor.step_html traf { a with summary := s } = none := by
    intro s
    exact h0
  have h1' : ∀ s, ContentExtractor.step_url fetchUrl { a with summary := s } = none := by
    intro s
    exact h1
  constructor
  · intro hc
    refine ⟨?_, fun s => ?_⟩
    · simp [ContentExtractor.extract_content, h0, h1, hc]
    · simp [ContentExtractor.extract_content, h0' s, h1' s, hc]
  · intro hc
    simp [ContentExtractor.extract_content, h0, h1, hc]

/-- Witness for C5: an article whose URL fetch fails (`fetchUrl ≡ none`),
with a populated `content` field — extraction returns the content field. -/
theorem extract_content_prefers_content_witness :
    ContentExtractor.extract_content (fun _ => none) (fun _ => none)
      ⟨1, none, some ("http:u"), some ("body text"), some ("a summary")⟩
      = some ("body text") :=
  ((extract_content_prefers_content (fun _ => none) (fun _ => none)
    ⟨1, none, some ("http:u"), some ("body text"), some ("a summary")⟩
    rfl rfl).1 rfl).1

/-! ## Fetcher: `ReadwiseClient.fetch_reader_document_list` -/

/-- One response of the paginated list endpoint: `results` is absent on a
rate-limit response; `retryAfter` is the `Retry-After` header value in
seconds; documents are identified by their ids. -/
structure PageResp where
  results : Option (List ℕ)
  nextPageCursor : Option ℕ
  retryAfter : ℕ
deriving DecidableEq, Repr

/-- Observable actions of the fetch loop: the n-th HTTP request, or a
`time.sleep` of the given number of seconds. -/
inductive FetchEvent where
  | request (idx : ℕ)
  | sleep (seconds : ℕ)
deriving DecidableEq, Repr

namespace ReadwiseClient

/-- `ReadwiseClient.check_if_rate_limited`: a response lacking a `results`
field signals rate limiting (the caller then sleeps `Retry-After + 3`). -/
def check_if_rate_limited (resp : PageResp) : Bool := resp.results.isNone

/-- The `while True` page loop of `fetch_reader_document_list` over a server
modelled as the sequence of responses to successive requests.  `fuel` bounds
the number of loop iterations (the Python loop is unbounded); `none` means
the bound was hit, the loop itself has no failure path. -/
def fetchLoop (server : ℕ → PageResp) (limit : Option ℕ) :
    ℕ → ℕ → List ℕ → List FetchEvent → Option (List ℕ × List FetchEvent)
  | 0, _, _, _ => none
  | fuel + 1, reqIdx, acc, log =>
    if limit.any (fun l => l ≤ acc.length) then some (acc, log)
    else
      let resp := server reqIdx
      let log1 := log ++ [FetchEvent.request reqIdx]
      let step :=
        if check_if_rate_limited resp then
          (server (reqIdx + 1), reqIdx + 2,
            log1 ++ [FetchEvent.sleep (resp.retryAfter + 3),
              FetchEvent.request (reqIdx + 1)])
        else (resp, reqIdx + 1, log1)
      let results := step.1.results.getD []
      let kept :=
        match limit with
        | some l => if l < acc.length + results.length
                    then results.take (l - acc.length) else results
        | none => results
      let acc1 := acc ++ kept
      if limit.any (fun l => l ≤ acc1.length) then some (acc1, step.2.2)
      else
        match step.1.nextPageCursor with
        | none => some (acc1, step.2.2)
        | some _ => fetchLoop server limit fuel step.2.1 acc1 step.2.2

/-- `ReadwiseClient.fetch_reader_document_list`: cursor-paginated fetch of a
document list, honoring the rate-limit retry of `check_if_rate_limited`. -/
def fetch_reader_document_list (server : ℕ → PageResp) (limit : Option ℕ)
    (fuel : ℕ) : Option (List ℕ × List FetchEvent) :=
  fetchLoop server limit fuel 0 [] []

end ReadwiseClient

/-- C6 counterexample: a first page response lacking `results`
(`Retry-After` = 12) followed by a retry that also lacks `results`.  The
fetch sleeps 15 s and retries once as claimed, but then returns normally
with zero documents — there is no `TransientNetworkError` failure (the
code base defines no such error), contradicting the claim that the fetch
fails and propagates an error to the caller. -/
theorem fetch_rate_limit_retry_counterexample :
    ReadwiseClient.fetch_reader_document_list
      (fun n => if n = 0 then ⟨none, some 7, 12⟩ else ⟨none, none, 9⟩) none 5
      = some ([], [FetchEvent.request 0, FetchEvent.sleep 15,
          FetchEvent.request 1]) := by
  rfl

/-- C6 (amended): a page response lacking `results` makes the client read
the `Retry-After` header, sleep that duration plus 3 seconds, and retry the
same request exactly once; if the retry's response also lacks `results`
(and carries no further cursor), the page contributes zero documents and
the fetch returns normally — no error is raised. -/
theorem fetch_rate_limit_retry (server : ℕ → PageResp) (fuel : ℕ)
    (h0 : (server 0).results = none)
    (h1 : (server 1).results = none)
    (hcur : (server 1).nextPageCursor = none) :
    ReadwiseClient.fetch_reader_document_list server none (fuel + 1)
      = some ([], [FetchEvent.request 0,
          FetchEvent.sleep ((server 0).retryAfter + 3), FetchEvent.request 1]) := by
  unfold ReadwiseClient.fetch_reader_document_list
  unfold ReadwiseClient.fetchLoop
  simp [ReadwiseClient.check_if_rate_limited, h0, h1, hcur]

/-- Witness for the amended C6 theorem at a concrete response stream. -/
theorem fetch_rate_limit_retry_witness :
    ReadwiseClient.fetch_reader_document_list
      (fun n => if n = 0 then ⟨none, some 3, 40⟩ else ⟨none, none, 8⟩) none 9
      = some ([], [FetchEvent.request 0, FetchEvent.sleep 43,
          FetchEvent.request 1]) :=
  fetch_rate_limit_retry
    (fun n => if n = 0 then ⟨none, some 3, 40⟩ else ⟨none, none, 8⟩) 8
    rfl rfl rfl

/-! ## ScoreAggregator: component weights and priority formula
(`analyze_articles.py`, mirrored by
`PrioritizationService.calculate_priority_scores`) -/

/-- The six score components of `COMPONENT_WEIGHTS`, in dict insertion
order. -/
inductive Component where
  | quality
  | information_density
  | readability
  | topic_relevance
  | freshness
  | engagement_potential
deriving DecidableEq, Repr

/-- `COMPONENT_WEIGHTS` of `analyze_articles.py` (same table as
`PrioritizationService.component_weights`). -/
def COMPONENT_WEIGHTS : Component → ℚ
  | .quality => 25/100
  | .information_density => 15/100
  | .readability => 15/100
  | .topic_relevance => 20/100
  | .freshness => 10/100
  | .engagement_potential => 15/100

/-- The `component_scores` dict: one value per component. -/
structure ComponentScores where
  quality : ℚ
  information_density : ℚ
  readability : ℚ
  topic_relevance : ℚ
  freshness : ℚ
  engagement_potential : ℚ
deriving DecidableEq, Repr

def ComponentScores.get (cs : ComponentScores) : Component → ℚ
  | .quality => cs.quality
  | .information_density => cs.information_density
  | .readability => cs.readability
  | .topic_relevance => cs.topic_relevance
  | .freshness => cs.freshness
  | .engagement_potential => cs.engagement_potential

/-- The keys of the `component_scores` dict in iteration order. -/
def allComponents : List Component :=
  [.quality, .information_density, .readability, .topic_relevance,
   .freshness, .engagement_potential]

/-- `priority_score = round(sum(score * COMPONENT_WEIGHTS[component]) * 10, 1)`
as computed and persisted by `fetch_and_analyze`. -/
def priority_score (cs : ComponentScores) : ℚ :=
  pyRound1 ((allComponents.map (fun c => cs.get c * COMPONENT_WEIGHTS c)).sum * 10)

/-- C2: the six aggregator weights sum to exactly 1; the computed priority
score is `round(Σ wᵢ·scoreᵢ·10, 1)`; component scores in `[1,10]` put it in
`[10,100]`; and the example scores `(7,6,5,8,4,5)` yield exactly `61.5`. -/
theorem priority_score_weighted (q i r t f e : ℚ)
    (hq1 : 1 ≤ q) (hq2 : q ≤ 10) (hi1 : 1 ≤ i) (hi2 : i ≤ 10)
    (hr1 : 1 ≤ r) (hr2 : r ≤ 10) (ht1 : 1 ≤ t) (ht2 : t ≤ 10)
    (hf1 : 1 ≤ f) (hf2 : f ≤ 10) (he1 : 1 ≤ e) (he2 : e ≤ 10) :
    (allComponents.map COMPONENT_WEIGHTS).sum = 1 ∧
    priority_score ⟨q, i, r, t, f, e⟩
      = pyRound1 ((COMPONENT_WEIGHTS .quality * q * 10)
          + (COMPONENT_WEIGHTS .information_density * i * 10)
          + (COMPONENT_WEIGHTS .readability * r * 10)
          + (COMPONENT_WEIGHTS .topic_relevance * t * 10)
          + (COMPONENT_WEIGHTS .freshness * f * 10)
          + (COMPONENT_WEIGHTS .engagement_potential * e * 10)) ∧
    (10 ≤ priority_score ⟨q, i, r, t, f, e⟩ ∧
      priority_score ⟨q, i, r, t, f, e⟩ ≤ 100) ∧
    priority_score ⟨7, 6, 5, 8, 4, 5⟩ = 615/10 := by
  refine ⟨by norm_num [allComponents, COMPONENT_WEIGHTS], ?_, ?_, ?_⟩
  · unfold priority_score allComponents
    simp only [List.map_cons, List.map_nil, List.sum_cons, List.sum_nil,
      ComponentScores.get, COMPONENT_WEIGHTS]
    ring_nf
  · unfold priority_score allComponents
    simp only [List.map_cons, List.map_nil, List.sum_cons, List.sum_nil,
      ComponentScores.get, COMPONENT_WEIGHTS]
    have hsum : (10:ℚ) ≤ (q * (25/100) + (i * (15/100) + (r * (15/100)
        + (t * (20/100) + (f * (10/100) + (e * (15/100) + 0)))))) * 10 := by
      linarith
    have hsum2 : (q * (25/100) + (i * (15/100) + (r * (15/100)
        + (t * (20/100) + (f * (10/100) + (e * (15/100) + 0)))))) * 10 ≤ 100 := by
      linarith
    have := pyRound1_bounds (a := 10) (b := 100)
      (by exact_mod_cast hsum) (by exact_mod_cast hsum2)
    constructor
    · exact_mod_cast this.1
    · exact_mod_cast this.2
  · unfold priority_score
    have harg : ((allComponents.map (fun c =>
        (⟨7, 6, 5, 8, 4, 5⟩ : ComponentScores).get c * COMPONENT_WEIGHTS c)).sum * 10)
        = (123/2 : ℚ) := by
      norm_num [allComponents, ComponentScores.get, COMPONENT_WEIGHTS]
    rw [harg]
    unfold pyRound1
    have h615 : (123/2 : ℚ) * 10 = ((615 : ℤ) : ℚ) := by norm_num
    rw [h615, roundHalfEven_intCast]
    norm_num

/-- Witness for C2 at the spec's example component scores. -/
theorem priority_score_weighted_witness :
    priority_score ⟨7, 6, 5, 8, 4, 5⟩ = 615/10 :=
  (priority_score_weighted 7 6 5 8 4 5 (by norm_num) (by norm_num) (by norm_num)
    (by norm_num) (by norm_num) (by norm_num) (by norm_num) (by norm_num)
    (by norm_num) (by norm_num) (by norm_num) (by norm_num)).2.2.2

/-! ## AnalyzerSuite: the five `_calculate_normalized_score` functions -/

namespace ReadabilityAnalyzer

/-- The averaged 0–100 complexity of the four textstat indices (textstat is
an external black box, so the indices are inputs here). -/
def avg_complexity (flesch smog coleman ari : ℚ) : ℚ :=
  ((100 - flesch) + min 100 (smog * 5) + min 100 (coleman * 5)
    + min 100 (ari * 5)) / 4

/-- `ReadabilityAnalyzer._calculate_normalized_score`: three-segment
piecewise-linear map of averaged complexity onto the 1–10 scale. -/
def calculate_normalized_score (flesch smog coleman ari : ℚ) : ℚ :=
  let avg := ((100 - flesch) + min 100 (smog * 5) + min 100 (coleman * 5)
    + min 100 (ari * 5)) / 4
  if avg < 25 then 1 + (avg / 25) * 3
  else if avg < 75 then 4 + ((avg - 25) / 50) * 3
  else 7 + ((avg - 75) / 25) * 3

end ReadabilityAnalyzer

namespace InformationDensityAnalyzer

/-- `InformationDensityAnalyzer._calculate_normalized_score`:
`1 + 9·(0.4·diversity + 0.4·factDensity + 0.2·conceptDensity)`. -/
def calculate_normalized_score (lexical_diversity fact_density concept_density : ℚ) : ℚ :=
  1 + (lexical_diversity * (4/10) + fact_density * (4/10)
    + concept_density * (2/10)) * 9

end InformationDensityAnalyzer

namespace TopicRelevanceAnalyzer

/-- `TopicRelevanceAnalyzer._calculate_normalized_score` over the values of
`topic_matches` (all positive by construction, the empty dict yields 5.0). -/
def calculate_normalized_score (match_scores : List ℚ) : ℚ :=
  if match_scores.isEmpty then 5
  else
    let max_score := (match_scores.maximum.getD 0 : ℚ)
    let significant_topics := (match_scores.filter (fun s => 1 < s)).length
    let max_score_normalized := min 10 (max_score / 2)
    let diversity_normalized := min 10 ((significant_topics : ℚ) * 2)
    max 1 (min 10 (max_score_normalized * (7/10) + diversity_normalized * (3/10)))

end TopicRelevanceAnalyzer

namespace EngagementAnalyzer

/-- `EngagementAnalyzer._calculate_normalized_score`: weighted sum of the
four 0–1 sub-scores mapped onto 1–10. -/
def calculate_normalized_score
    (emotional_score narrative_score visual_score interactive_score : ℚ) : ℚ :=
  1 + (emotional_score * (35/100) + narrative_score * (25/100)
    + visual_score * (2/10) + interactive_score * (2/10)) * 9

end EngagementAnalyzer

/-- Python's round-half-to-even on reals. -/
noncomputable def roundHalfEvenR (x : ℝ) : ℤ :=
  if Int.fract x = 1/2 then (if 2 ∣ ⌊x⌋ then ⌊x⌋ else ⌊x⌋ + 1) else round x

/-- Python's `round(x, 2)` on reals. -/
noncomputable def pyRound2R (x : ℝ) : ℝ := (roundHalfEvenR (x * 100) : ℝ) / 100

theorem roundHalfEvenR_intCast (n : ℤ) : roundHalfEvenR (n : ℝ) = n := by
  unfold roundHalfEvenR
  rw [Int.fract_intCast]
  norm_num

theorem pyRound2R_eq_of_mul_intCast {x : ℝ} {n : ℤ} (h : x * 100 = (n : ℝ)) :
    pyRound2R x = (n : ℝ) / 100 := by
  unfold pyRound2R
  rw [h, roundHalfEvenR_intCast]

namespace FreshnessAnalyzer

/-- The `decay_rates` half-life table (days), with `dict.get`'s fall-back to
the `default` entry. -/
def decay_rates (category : String) : ℕ :=
  if category = "news" then 3
  else if category = "technology" then 90
  else if category = "science" then 365
  else if category = "evergreen" then 1095
  else if category = "reference" then 1825
  else 180

/-- `FreshnessAnalyzer._calculate_normalized_score`: the temporal-reference
score when `age_days == 0`, else exponential decay (80%) blended with the
capped temporal-reference factor (20%), mapped onto 1–10. -/
noncomputable def calculate_normalized_score (age_days : ℤ)
    (temporal_references_count : ℕ) (decay_rate : ℕ) : ℝ :=
  if age_days = 0 then
    5 + min 3 ((temporal_references_count : ℝ) * (3/10))
  else
    1 + (Real.exp (-Real.log 2 * (age_days : ℝ) / (decay_rate : ℝ)) * (8/10)
      + min 1 ((temporal_references_count : ℝ) * (1/10)) * (2/10)) * 9

/-- The content features `FreshnessAnalyzer.analyze` reads: the length of
the stripped text and the regex count of temporal references (the regex
battery is a black box). -/
structure FreshContent where
  stripLen : ℕ
  temporalRefs : ℕ
deriving DecidableEq, Repr

/-- The metric bundle returned by `FreshnessAnalyzer.analyze`. -/
structure FreshMetrics where
  age_days : ℤ
  temporal_references_count : ℕ
  decay_rate : ℕ
  is_recent : Bool
  normalized_score : ℝ

/-- `FreshnessAnalyzer.analyze`: neutral bundle for insufficient text, else
age in days from the publication date (0 when absent) and the rounded
normalized score. -/
noncomputable def analyze (c : FreshContent) (published_date : Option ℤ)
    (category : String) (current_date : ℤ) : FreshMetrics :=
  if c.stripLen < 100 then
    { age_days := 0, temporal_references_count := 0,
      decay_rate := decay_rates category, is_recent := false,
      normalized_score := 5 }
  else
    let age_days : ℤ :=
      match published_date with
      | some p => current_date - p
      | none => 0
    let is_recent : Bool :=
      match published_date with
      | some _ => decide (age_days ≤ 7)
      | none => false
    { age_days := age_days, temporal_references_count := c.temporalRefs,
      decay_rate := decay_rates category, is_recent := is_recent,
      normalized_score := pyRound2R
        (calculate_normalized_score age_days c.temporalRefs (decay_rates category)) }

end FreshnessAnalyzer

theorem pyRound2R_temporal (t : ℕ) :
    pyRound2R (5 + min 3 ((t : ℝ) * (3/10))) = 5 + min 3 ((t : ℝ) * (3/10)) := by
  rcases le_or_lt 10 t with h | h
  · have hmin : min (3:ℝ) ((t:ℝ) * (3/10)) = 3 := min_eq_left (by
      have h10 : (10:ℝ) ≤ (t:ℝ) := by exact_mod_cast h
      linarith)
    rw [hmin]
    rw [pyRound2R_eq_of_mul_intCast (n := 800) (by norm_num)]
    norm_num
  · have hmin : min (3:ℝ) ((t:ℝ) * (3/10)) = (t:ℝ) * (3/10) := min_eq_right (by
      have h10 : (t:ℝ) < 10 := by exact_mod_cast h
      linarith)
    rw [hmin]
    have hcast : (5 + (t:ℝ) * (3/10)) * 100 = (((500 + 30 * t : ℕ) : ℤ) : ℝ) := by
      push_cast
      ring
    rw [pyRound2R_eq_of_mul_intCast hcast]
    push_cast
    ring

/-- C7 counterexample: sufficient text, a publication date equal to the
current date (so `age_days = 0`), no temporal references, category
`default`.  The claim's decay formula evaluates to `8.2`, but `analyze`
takes the `age_days == 0` branch and returns `5.0` — so a publication date
being available does not imply the decay formula is used. -/
theorem freshness_published_today_counterexample :
    (FreshnessAnalyzer.analyze ⟨200, 0⟩ (some 1000) ("default") 1000).normalized_score
      = 5 ∧
    1 + 9 * ((8/10) * Real.exp (-(Real.log 2) * (((1000 : ℤ) - 1000 : ℤ) : ℝ)
        / (FreshnessAnalyzer.decay_rates ("default") : ℝ))
      + (2/10) * min 1 ((1/10) * ((0 : ℕ) : ℝ))) = (41/5 : ℝ) ∧
    (5 : ℝ) ≠ 41/5 := by
  refine ⟨?_, ?_, by norm_num⟩
  · unfold FreshnessAnalyzer.analyze
    rw [if_neg (by norm_num)]
    dsimp only
    have hage : (1000 : ℤ) - 1000 = 0 := by decide
    rw [hage]
    have hcalc : FreshnessAnalyzer.calculate_normalized_score 0 0
        (FreshnessAnalyzer.decay_rates ("default")) = 5 := by
      unfold FreshnessAnalyzer.calculate_normalized_score
      rw [if_pos rfl]
      norm_num
    rw [hcalc]
    rw [pyRound2R_eq_of_mul_intCast (n := 500) (by norm_num)]
    norm_num
  · have hage : ((1000 : ℤ) - 1000 : ℤ) = 0 := by decide
    rw [hage]
    simp [Real.exp_zero]
    norm_num

/-- C7 (amended): for sufficient text, the half-life table is
`news=3, technology=90, science=365, evergreen=1095, reference=1825,
default=180`; when a publication date is available **and the computed age in
days is non-zero**, the normalized score is the rounded value of
`1 + 9·(0.8·exp(−ln2·ageDays/halfLife) + 0.2·min(1, 0.1·temporalRefs))`;
when no publication date is available **or the age is 0 days**, the score is
`5 + min(3, 0.3·temporalRefs)`, which lies in `[5,8]`. -/
theorem freshness_analyze_score (c : FreshnessAnalyzer.FreshContent)
    (p current : ℤ) (category : String) (hlen : 100 ≤ c.stripLen) :
    (FreshnessAnalyzer.decay_rates ("news") = 3
      ∧ FreshnessAnalyzer.decay_rates ("technology") = 90
      ∧ FreshnessAnalyzer.decay_rates ("science") = 365
      ∧ FreshnessAnalyzer.decay_rates ("evergreen") = 1095
      ∧ FreshnessAnalyzer.decay_rates ("reference") = 1825
      ∧ FreshnessAnalyzer.decay_rates ("default") = 180) ∧
    (current - p ≠ 0 →
      (FreshnessAnalyzer.analyze c (some p) category current).normalized_score
        = pyRound2R (1 + 9 * ((8/10)
            * Real.exp (-(Real.log 2) * ((current - p : ℤ) : ℝ)
                / (FreshnessAnalyzer.decay_rates category : ℝ))
          + (2/10) * min 1 ((1/10) * (c.temporalRefs : ℝ))))) ∧
    ((FreshnessAnalyzer.analyze c none category current).normalized_score
        = 5 + min 3 ((3/10) * (c.temporalRefs : ℝ))) ∧
    (5 ≤ (FreshnessAnalyzer.analyze c none category current).normalized_score
      ∧ (FreshnessAnalyzer.analyze c none category current).normalized_score ≤ 8) ∧
    (current - p = 0 →
      (FreshnessAnalyzer.analyze c (some p) category current).normalized_score
        = 5 + min 3 ((3/10) * (c.temporalRefs : ℝ))) := by
  have hmin30 : min (3:ℝ) ((c.temporalRefs : ℝ) * (3/10))
      = min 3 ((3/10) * (c.temporalRefs : ℝ)) := by rw [mul_comm]
  have hnone : (FreshnessAnalyzer.analyze c none category current).normalized_score
      = 5 + min 3 ((3/10) * (c.temporalRefs : ℝ)) := by
    unfold FreshnessAnalyzer.analyze
    rw [if_neg (by omega)]
    dsimp only
    have hcalc : FreshnessAnalyzer.calculate_normalized_score 0 c.temporalRefs
        (FreshnessAnalyzer.decay_rates category)
        = 5 + min 3 ((c.temporalRefs : ℝ) * (3/10)) := by
      unfold FreshnessAnalyzer.calculate_normalized_score
      rw [if_pos rfl]
    rw [hcalc, pyRound2R_temporal, hmin30]
  refine ⟨by refine ⟨?_, ?_, ?_, ?_, ?_, ?_⟩ <;> decide, ?_, hnone, ?_, ?_⟩
  · intro hne
    unfold FreshnessAnalyzer.analyze
    rw [if_neg (by omega)]
    dsimp only
    unfold FreshnessAnalyzer.calculate_normalized_score
    rw [if_neg hne]
    congr 1
    rw [show min (1:ℝ) ((c.temporalRefs : ℝ) * (1/10))
      = min 1 ((1/10) * (c.temporalRefs : ℝ)) from by rw [mul_comm]]
    ring
  · constructor
    · rw [hnone]
      have : (0:ℝ) ≤ min 3 ((3/10) * (c.temporalRefs : ℝ)) :=
        le_min (by norm_num) (by positivity)
      linarith
    · rw [hnone]
      have : min (3:ℝ) ((3/10) * (c.temporalRefs : ℝ)) ≤ 3 := min_le_left _ _
      linarith
  · intro h0
    unfold FreshnessAnalyzer.analyze
    rw [if_neg (by omega)]
    dsimp only
    rw [h0]
    have hcalc : FreshnessAnalyzer.calculate_normalized_score 0 c.temporalRefs
        (FreshnessAnalyzer.decay_rates category)
        = 5 + min 3 ((c.temporalRefs : ℝ) * (3/10)) := by
      unfold FreshnessAnalyzer.calculate_normalized_score
      rw [if_pos rfl]
    rw [hcalc, pyRound2R_temporal, hmin30]

/-- Witness for the amended C7 theorem: sufficient text, 4 temporal
references, no publication date — the score is `5 + min(3, 1.2) = 6.2`. -/
theorem freshness_analyze_score_witness :
    (FreshnessAnalyzer.analyze ⟨150, 4⟩ none ("science") 500).normalized_score
      = 5 + min 3 ((3/10) * ((4 : ℕ) : ℝ)) :=
  (freshness_analyze_score ⟨150, 4⟩ 0 500 ("science") (by norm_num)).2.2.1

/-- C8 counterexample: a text whose Flesch reading ease is 200 (trivially
simple per textstat's unclamped formula) and whose other three indices are
0 gives averaged complexity −25, and the readability analyzer's unclamped
piecewise map returns −2 — outside `[1,10]`.  So not every analyzer's
normalized score lies in `[1,10]`. -/
theorem readability_score_out_of_range :
    ReadabilityAnalyzer.calculate_normalized_score 200 0 0 0 = -2 ∧
    ¬(1 ≤ ReadabilityAnalyzer.calculate_normalized_score 200 0 0 0 ∧
      ReadabilityAnalyzer.calculate_normalized_score 200 0 0 0 ≤ 10) := by
  have h : ReadabilityAnalyzer.calculate_normalized_score 200 0 0 0 = -2 := by
    unfold ReadabilityAnalyzer.calculate_normalized_score
    norm_num
  refine ⟨h, ?_⟩
  rw [h]
  norm_num

/-- C8 (amended): information density, topic relevance and engagement always
return normalized scores in `[1,10]` (their sub-scores are 0–1 ratios or
capped by construction, and the topic score is clamped); freshness does so
whenever the computed age is non-negative (a publication date not in the
future); readability does so whenever the averaged complexity of the four
indices lies in `[0,100]` — its unclamped piecewise map may leave `[1,10]`
for extreme index values. -/
theorem analyzer_score_ranges
    (lx fa ca em na vi ia fl sm co ar : ℚ) (match_scores : List ℚ)
    (age : ℤ) (t dr : ℕ)
    (hlx1 : 0 ≤ lx) (hlx2 : lx ≤ 1) (hfa1 : 0 ≤ fa) (hfa2 : fa ≤ 1)
    (hca1 : 0 ≤ ca) (hca2 : ca ≤ 1)
    (hem1 : 0 ≤ em) (hem2 : em ≤ 1) (hna1 : 0 ≤ na) (hna2 : na ≤ 1)
    (hvi1 : 0 ≤ vi) (hvi2 : vi ≤ 1) (hia1 : 0 ≤ ia) (hia2 : ia ≤ 1)
    (havg1 : 0 ≤ ReadabilityAnalyzer.avg_complexity fl sm co ar)
    (havg2 : ReadabilityAnalyzer.avg_complexity fl sm co ar ≤ 100)
    (hage : 0 ≤ age) (hdr : 0 < dr) :
    (1 ≤ InformationDensityAnalyzer.calculate_normalized_score lx fa ca ∧
      InformationDensityAnalyzer.calculate_normalized_score lx fa ca ≤ 10) ∧
    (1 ≤ TopicRelevanceAnalyzer.calculate_normalized_score match_scores ∧
      TopicRelevanceAnalyzer.calculate_normalized_score match_scores ≤ 10) ∧
    (1 ≤ EngagementAnalyzer.calculate_normalized_score em na vi ia ∧
      EngagementAnalyzer.calculate_normalized_score em na vi ia ≤ 10) ∧
    (1 ≤ ReadabilityAnalyzer.calculate_normalized_score fl sm co ar ∧
      ReadabilityAnalyzer.calculate_normalized_score fl sm co ar ≤ 10) ∧
    ((1:ℝ) ≤ FreshnessAnalyzer.calculate_normalized_score age t dr ∧
      FreshnessAnalyzer.calculate_normalized_score age t dr ≤ 10) := by
  refine ⟨?_, ?_, ?_, ?_, ?_⟩
  · unfold InformationDensityAnalyzer.calculate_normalized_score
    constructor <;> nlinarith
  · unfold TopicRelevanceAnalyzer.calculate_normalized_score
    split
    · norm_num
    · dsimp only
      constructor
      · exact le_max_left _ _
      · exact max_le (by norm_num) (min_le_left _ _)
  · unfold EngagementAnalyzer.calculate_normalized_score
    constructor <;> nlinarith
  · have hA : ReadabilityAnalyzer.avg_complexity fl sm co ar
        = ((100 - fl) + min 100 (sm * 5) + min 100 (co * 5) + min 100 (ar * 5)) / 4 :=
      rfl
    rw [hA] at havg1 havg2
    unfold ReadabilityAnalyzer.calculate_normalized_score
    dsimp only
    split_ifs with h1 h2 <;> constructor <;> linarith
  · unfold FreshnessAnalyzer.calculate_normalized_score
    split_ifs with h0
    · have hmin1 : (0:ℝ) ≤ min 3 ((t : ℝ) * (3/10)) := le_min (by norm_num) (by positivity)
      have hmin2 : min (3:ℝ) ((t : ℝ) * (3/10)) ≤ 3 := min_le_left _ _
      constructor <;> linarith
    · have hdr' : (0:ℝ) < (dr : ℝ) := by exact_mod_cast hdr
      have hage' : (0:ℝ) ≤ ((age : ℤ) : ℝ) := by exact_mod_cast hage
      have hlog : (0:ℝ) ≤ Real.log 2 := Real.log_nonneg (by norm_num)
      have hexpo : -Real.log 2 * ((age : ℤ) : ℝ) / (dr : ℝ) ≤ 0 := by
        apply div_nonpos_of_nonpos_of_nonneg
        · nlinarith
        · exact le_of_lt hdr'
      have hA1 : Real.exp (-Real.log 2 * ((age : ℤ) : ℝ) / (dr : ℝ)) ≤ 1 :=
        Real.exp_le_one_iff.mpr hexpo
      have hA0 : 0 < Real.exp (-Real.log 2 * ((age : ℤ) : ℝ) / (dr : ℝ)) :=
        Real.exp_pos _
      have hT0 : (0:ℝ) ≤ min 1 ((t : ℝ) * (1/10)) := le_min (by norm_num) (by positivity)
      have hT1 : min (1:ℝ) ((t : ℝ) * (1/10)) ≤ 1 := min_le_left _ _
      constructor <;> nlinarith

/-- Witness for the amended C8 theorem at neutral concrete inputs. -/
theorem analyzer_score_ranges_witness :
    (1 ≤ InformationDensityAnalyzer.calculate_normalized_score (1/2) (1/2) (1/2) ∧
      InformationDensityAnalyzer.calculate_normalized_score (1/2) (1/2) (1/2) ≤ 10) ∧
    (1 ≤ TopicRelevanceAnalyzer.calculate_normalized_score [] ∧
      TopicRelevanceAnalyzer.calculate_normalized_score [] ≤ 10) ∧
    (1 ≤ EngagementAnalyzer.calculate_normalized_score 0 0 0 0 ∧
      EngagementAnalyzer.calculate_normalized_score 0 0 0 0 ≤ 10) ∧
    (1 ≤ ReadabilityAnalyzer.calculate_normalized_score 50 10 10 10 ∧
      ReadabilityAnalyzer.calculate_normalized_score 50 10 10 10 ≤ 10) ∧
    ((1:ℝ) ≤ FreshnessAnalyzer.calculate_normalized_score 30 2 180 ∧
      FreshnessAnalyzer.calculate_normalized_score 30 2 180 ≤ 10) :=
  analyzer_score_ranges (1/2) (1/2) (1/2) 0 0 0 0 50 10 10 10 [] 30 2 180
    (by norm_num) (by norm_num) (by norm_num) (by norm_num) (by norm_num)
    (by norm_num) (by norm_num) (by norm_num) (by norm_num) (by norm_num)
    (by norm_num) (by norm_num) (by norm_num) (by norm_num)
    (by norm_num [ReadabilityAnalyzer.avg_complexity])
    (by norm_num [ReadabilityAnalyzer.avg_complexity])
    (by norm_num) (by norm_num)

/-! ## Batch analysis skip discipline: `fetch_and_analyze`
(`analyze_articles.py`) -/

/-- A fetched document as processed by the batch loop; extraction and the
analyzers are opaque parameters of the loop below. -/
structure BatchDoc where
  id : ℕ
  payload : ℕ
deriving DecidableEq, Repr

/-- A persisted article record.  `priority_score = none` models a record
without the key, `some none` a stored null, `some (some v)` a stored
score `v`. -/
structure StoredRec where
  id : ℕ
  priority_score : Option (Option ℚ)
  payload : ℕ
deriving DecidableEq, Repr

/-- `find_one`-style lookup by the `id` field (first match). -/
def getById (coll : List StoredRec) (i : ℕ) : Option StoredRec :=
  coll.find? (fun r => r.id = i)

namespace analyze_articles

/-- The ids found by
`collection.find({"id": {"$in": article_ids}, "priority_score": {"$exists": True}})`:
a key-existence test, so records with a stored null score are included. -/
def existing_ids (coll : List StoredRec) (documents : List BatchDoc) : List ℕ :=
  (coll.filter (fun r => r.priority_score.isSome
    ∧ r.id ∈ documents.map BatchDoc.id)).map StoredRec.id

/-- `update_one({"id": id}, {"$set": clean_doc})` on the first matching
record: the analysed document's fields and its freshly computed score. -/
def set_scored (d : BatchDoc) (score : ℚ) : List StoredRec → List StoredRec
  | [] => []
  | r :: rest =>
    if r.id = d.id then ⟨d.id, some (some score), d.payload⟩ :: rest
    else r :: set_scored d score rest

/-- `update_one(..., upsert=True)`: modify the first record with this id,
or insert a fresh one. -/
def upsert_scored (d : BatchDoc) (score : ℚ) (coll : List StoredRec) :
    List StoredRec :=
  if coll.any (fun r => r.id = d.id) then set_scored d score coll
  else coll ++ [⟨d.id, some (some score), d.payload⟩]

/-- One iteration of the `for doc in documents` loop of `fetch_and_analyze`:
skip (counting) when the id is already analysed; otherwise extract content
(`extract`, opaque) — on failure move on, on success run the analyzers and
persist the rounded priority score (`scoreOf`, opaque, pre-rounding).
State: (collection, analysed ids, skipped count). -/
def step (extract : BatchDoc → Option String) (scoreOf : BatchDoc → ℚ)
    (exIds : List ℕ) (st : List StoredRec × List ℕ × ℕ) (d : BatchDoc) :
    List StoredRec × List ℕ × ℕ :=
  if d.id ∈ exIds then (st.1, st.2.1, st.2.2 + 1)
  else
    match extract d with
    | none => st
    | some _ => (upsert_scored d (pyRound1 (scoreOf d)) st.1,
        st.2.1 ++ [d.id], st.2.2)

/-- `fetch_and_analyze`'s analysis loop over the fetched documents. -/
def fetch_and_analyze (extract : BatchDoc → Option String)
    (scoreOf : BatchDoc → ℚ) (coll : List StoredRec)
    (documents : List BatchDoc) : List StoredRec × List ℕ × ℕ :=
  documents.foldl (step extract scoreOf (existing_ids coll documents)) (coll, [], 0)

theorem getById_set_scored_ne (d : BatchDoc) (s : ℚ) (x : ℕ) (hne : d.id ≠ x) :
    ∀ coll : List StoredRec, getById (set_scored d s coll) x = getById coll x := by
  intro coll
  induction coll with
  | nil => rfl
  | cons r rest ih =>
    unfold set_scored
    by_cases hr : r.id = d.id
    · rw [if_pos hr]
      unfold getById at *
      rw [List.find?_cons_of_neg _ (by simpa using hne),
        List.find?_cons_of_neg _ (by simp [hr]; exact hr ▸ hne)]
    · rw [if_neg hr]
      unfold getById at *
      by_cases hx : r.id = x
      · rw [List.find?_cons_of_pos _ (by simpa using hx),
          List.find?_cons_of_pos _ (by simpa using hx)]
      · rw [List.find?_cons_of_neg _ (by simpa using hx),
          List.find?_cons_of_neg _ (by simpa using hx)]
        exact ih

theorem getById_upsert_ne (d : BatchDoc) (s : ℚ) (x : ℕ) (hne : d.id ≠ x)
    (coll : List StoredRec) :
    getById (upsert_scored d s coll) x = getById coll x := by
  unfold upsert_scored
  split
  · exact getById_set_scored_ne d s x hne coll
  · unfold getById
    rw [List.find?_append]
    have h2 : ([(⟨d.id, some (some s), d.payload⟩ : StoredRec)].find?
        (fun r => r.id = x)) = none := by
      simp [hne]
    rw [h2]
    cases coll.find? (fun r => r.id = x) <;> rfl

theorem getById_of_mem {coll : List StoredRec} (hid : (coll.map StoredRec.id).Nodup)
    {r : StoredRec} (hr : r ∈ coll) : getById coll r.id = some r := by
  induction coll with
  | nil => cases hr
  | cons a rest ih =>
    rcases List.mem_cons.mp hr with rfl | hr'
    · unfold getById
      rw [List.find?_cons_of_pos _ (by simp)]
    · have hane : a.id ≠ r.id := by
        intro h
        have : r.id ∈ rest.map StoredRec.id := List.mem_map_of_mem _ hr'
        rw [List.map_cons] at hid
        exact (List.nodup_cons.mp hid).1 (h ▸ this)
      unfold getById
      rw [List.find?_cons_of_neg _ (by simpa using hane)]
      exact ih (by rw [List.map_cons] at hid; exact (List.nodup_cons.mp hid).2) hr'

theorem foldl_preserves {α σ : Type} (f : σ → α → σ) (P : σ → Prop)
    (hstep : ∀ s a, P s → P (f s a)) :
    ∀ (l : List α) (s : σ), P s → P (l.foldl f s) := by
  intro l
  induction l with
  | nil => intro s hs; exact hs
  | cons a rest ih => intro s hs; exact ih (f s a) (hstep s a hs)

theorem fetch_invariant (extract : BatchDoc → Option String)
    (scoreOf : BatchDoc → ℚ) (coll : List StoredRec) (documents : List BatchDoc)
    (r : StoredRec) (hx : r.id ∈ existing_ids coll documents)
    (h0 : getById coll r.id = some r) :
    getById (fetch_and_analyze extract scoreOf coll documents).1 r.id = some r ∧
    r.id ∉ (fetch_and_analyze extract scoreOf coll documents).2.1 := by
  unfold fetch_and_analyze
  have := foldl_preserves (step extract scoreOf (existing_ids coll documents))
    (fun st => getById st.1 r.id = some r ∧ r.id ∉ st.2.1) ?_ documents
    (coll, [], 0) ⟨h0, by simp⟩
  · exact this
  · rintro st d ⟨h1, h2⟩
    unfold step
    split
    · exact ⟨h1, h2⟩
    · rename_i hnd
      cases extract d with
      | none => exact ⟨h1, h2⟩
      | some c =>
        have hne : d.id ≠ r.id := fun h => hnd (h ▸ hx)
        refine ⟨?_, ?_⟩
        · rw [getById_upsert_ne d _ r.id hne st.1]
          exact h1
        · intro hmem
          rcases List.mem_append.mp hmem with h' | h'
          · exact h2 h'
          · exact hne (List.mem_singleton.mp h').symm

theorem fetch_all_skipped (extract : BatchDoc → Option String)
    (scoreOf : BatchDoc → ℚ) (exIds : List ℕ) :
    ∀ (docs : List BatchDoc) (coll : List StoredRec) (acc : List ℕ) (k : ℕ),
    (∀ d ∈ docs, d.id ∈ exIds) →
    docs.foldl (step extract scoreOf exIds) (coll, acc, k)
      = (coll, acc, k + docs.length) := by
  intro docs
  induction docs with
  | nil => intro coll acc k _; simp
  | cons d rest ih =>
    intro coll acc k hall
    have hd : d.id ∈ exIds := hall d (List.mem_cons_self d rest)
    have hstep : step extract scoreOf exIds (coll, acc, k) d = (coll, acc, k + 1) := by
      unfold step
      rw [if_pos hd]
    rw [List.foldl_cons, hstep,
      ih coll acc (k + 1) (fun x hx => hall x (List.mem_cons_of_mem d hx))]
    simp
    omega

end analyze_articles

namespace PrioritizationService

/-- The non-null score test of `check_existing_scores` and
`calculate_priority_scores`:
`"priority_score" in article and article["priority_score"] is not None`. -/
def hasNonNullScore (r : StoredRec) : Bool :=
  match r.priority_score with
  | some (some _) => true
  | _ => false

/-- `PrioritizationService.check_existing_scores`: split articles into
`(to_process, already_scored)` by the non-null priority-score test. -/
def check_existing_scores (articles : List StoredRec) :
    List StoredRec × List StoredRec :=
  (articles.filter (fun a => !hasNonNullScore a), articles.filter hasNonNullScore)

end PrioritizationService

/-- C3: an article whose persisted record carries a non-null priority score
is skipped by a subsequent batch run — it is never analysed and its stored
record (in particular its score) is unchanged; an already-scored corpus
makes the whole run a pure lookup: the collection is returned untouched,
nothing is analysed, and every document is counted as skipped.
`check_existing_scores` likewise files such an article under
`already_scored`. -/
theorem pipeline_skips_scored (extract : BatchDoc → Option String)
    (scoreOf : BatchDoc → ℚ) (coll : List StoredRec) (documents : List BatchDoc)
    (hid : (coll.map StoredRec.id).Nodup) :
    (∀ r ∈ coll, ∀ v : ℚ, r.priority_score = some (some v) →
      ∀ d ∈ documents, d.id = r.id →
        r.id ∉ (analyze_articles.fetch_and_analyze extract scoreOf coll documents).2.1 ∧
        getById (analyze_articles.fetch_and_analyze extract scoreOf coll documents).1
          r.id = some r) ∧
    ((∀ d ∈ documents, ∃ s ∈ coll, s.id = d.id ∧ ∃ v : ℚ,
        s.priority_score = some (some v)) →
      analyze_articles.fetch_and_analyze extract scoreOf coll documents
        = (coll, [], documents.length)) ∧
    (∀ r ∈ coll, ∀ v : ℚ, r.priority_score = some (some v) →
      r ∈ (PrioritizationService.check_existing_scores coll).2 ∧
      r ∉ (PrioritizationService.check_existing_scores coll).1) := by
  refine ⟨?_, ?_, ?_⟩
  · intro r hr v hps d hd hdi
    have hx : r.id ∈ analyze_articles.existing_ids coll documents := by
      unfold analyze_articles.existing_ids
      refine List.mem_map_of_mem _ (List.mem_filter.mpr ⟨hr, ?_⟩)
      simp only [decide_eq_true_eq]
      exact ⟨by rw [hps]; rfl, hdi ▸ List.mem_map_of_mem _ hd⟩
    have h0 : getById coll r.id = some r := analyze_articles.getById_of_mem hid hr
    have := analyze_articles.fetch_invariant extract scoreOf coll documents r hx h0
    exact ⟨this.2, this.1⟩
  · intro hall
    unfold analyze_articles.fetch_and_analyze
    rw [analyze_articles.fetch_all_skipped extract scoreOf _ documents coll [] 0 ?_]
    · simp
    · intro d hd
      rcases hall d hd with ⟨s, hs, hsd, v, hsv⟩
      unfold analyze_articles.existing_ids
      rw [← hsd]
      refine List.mem_map_of_mem _ (List.mem_filter.mpr ⟨hs, ?_⟩)
      simp only [decide_eq_true_eq]
      exact ⟨by rw [hsv]; rfl, hsd ▸ List.mem_map_of_mem _ hd⟩
  · intro r hr v hps
    have hscore : PrioritizationService.hasNonNullScore r = true := by
      unfold PrioritizationService.hasNonNullScore
      rw [hps]
    constructor
    · exact List.mem_filter.mpr ⟨hr, hscore⟩
    · intro hmem
      have := (List.mem_filter.mp hmem).2
      rw [hscore] at this
      simp at this

/-- Witness for C3: a one-document fetch whose record is already scored —
the run changes nothing, analyses nothing and skips one document. -/
theorem pipeline_skips_scored_witness :
    analyze_articles.fetch_and_analyze (fun _ => none) (fun _ => 0)
      [⟨1, some (some 42), 0⟩] [⟨1, 5⟩]
      = ([⟨1, some (some 42), 0⟩], [], 1) :=
  (pipeline_skips_scored (fun _ => none) (fun _ => 0)
    [⟨1, some (some 42), 0⟩] [⟨1, 5⟩] (by decide)).2.1
    (fun d hd => by
      rcases List.mem_singleton.mp hd with rfl
      exact ⟨⟨1, some (some 42), 0⟩, List.mem_singleton_self _, rfl, 42, rfl⟩)

/-- C10: the skip test of `fetch_and_analyze` is key-existence
(`{"priority_score": {"$exists": True}}`), so a record whose stored
priority score is null is also skipped: its id is in the already-analysed
set, the batch run never analyses it, and its record — null score included —
is left unchanged. -/
theorem pipeline_skips_null_scored (extract : BatchDoc → Option String)
    (scoreOf : BatchDoc → ℚ) (coll : List StoredRec) (documents : List BatchDoc)
    (hid : (coll.map StoredRec.id).Nodup)
    (r : StoredRec) (hr : r ∈ coll) (hps : r.priority_score = some none)
    (d : BatchDoc) (hd : d ∈ documents) (hdi : d.id = r.id) :
    r.id ∈ analyze_articles.existing_ids coll documents ∧
    r.id ∉ (analyze_articles.fetch_and_analyze extract scoreOf coll documents).2.1 ∧
    getById (analyze_articles.fetch_and_analyze extract scoreOf coll documents).1
      r.id = some r := by
  have hx : r.id ∈ analyze_articles.existing_ids coll documents := by
    unfold analyze_articles.existing_ids
    refine List.mem_map_of_mem _ (List.mem_filter.mpr ⟨hr, ?_⟩)
    simp only [decide_eq_true_eq]
    exact ⟨by rw [hps]; rfl, hdi ▸ List.mem_map_of_mem _ hd⟩
  have h0 : getById coll r.id = some r := analyze_articles.getById_of_mem hid hr
  have := analyze_articles.fetch_invariant extract scoreOf coll documents r hx h0
  exact ⟨hx, this.2, this.1⟩

/-- Witness for C10: a record stored with a null priority score is skipped
and keeps its null score. -/
theorem pipeline_skips_null_scored_witness :
    2 ∈ analyze_articles.existing_ids [⟨2, some none, 3⟩] [⟨2, 7⟩] ∧
    2 ∉ (analyze_articles.fetch_and_analyze (fun _ => none) (fun _ => 1)
      [⟨2, some none, 3⟩] [⟨2, 7⟩]).2.1 ∧
    getById (analyze_articles.fetch_and_analyze (fun _ => none) (fun _ => 1)
      [⟨2, some none, 3⟩] [⟨2, 7⟩]).1 2 = some ⟨2, some none, 3⟩ :=
  pipeline_skips_null_scored (fun _ => none) (fun _ => 1)
    [⟨2, some none, 3⟩] [⟨2, 7⟩] (by decide)
    ⟨2, some none, 3⟩ (List.mem_singleton_self _) rfl
    ⟨2, 7⟩ (List.mem_singleton_self _) rfl

/-! ## RetentionClassifier: `get_low_priority_articles`
(`src/relevance/prioritization.py`) -/

/-- A persisted article record with the fields the low-priority endpoint
reads and writes.  `Option` collapses MongoDB null and missing;
`priority_score` distinguishes a missing key (`none`) from a stored null
(`some none`).  `readability` stands for the stored readability bundle
(its normalized score), reused by `analyze_readability` when present. -/
structure PRec where
  oid : ℕ
  id : ℕ
  priority_score : Option (Option ℚ)
  component_scores : Option ComponentScores
  priority_score_updated_at : Option ℤ
  readability : Option ℚ
  published_date : Option ℤ
  content_extraction_failed : Bool
  content : Option String
  word_count : Option ℤ
  saved_at : Option ℤ
  first_opened_at : Option ℤ
  last_opened_at : Option ℤ
  reading_progress : Option ℚ
  title : Option String
  author : Option String
  url : Option String
  tags : Option (List String)
deriving DecidableEq, Repr

/-- Non-null priority score test on a persisted record. -/
def PRec.hasNonNullScore (r : PRec) : Bool :=
  match r.priority_score with
  | some (some _) => true
  | _ => false

/-- MongoDB sort key on `priority_score` ascending: null/missing sorts
before every number. -/
def psKey (r : PRec) : WithBot ℚ :=
  match r.priority_score with
  | some (some v) => (v : WithBot ℚ)
  | _ => ⊥

def psLe (a b : PRec) : Prop := psKey a ≤ psKey b

instance : DecidableRel psLe := fun a b => by unfold psLe; infer_instance

instance : IsTotal PRec psLe := ⟨fun _ _ => le_total _ _⟩

instance : IsTrans PRec psLe := ⟨fun _ _ _ => le_trans⟩

namespace low_priority

/-- The `$match`/`$or` battery of `get_low_priority_articles`.  Timestamps:
`now_d` is the current time in days (for the `saved_at`/opened clauses,
which compare datetimes), `cutoff_ms` the age cutoff in milliseconds (for
`published_date`).  In the abandoned-reading clause the source's duplicated
`"$ne"` dict key leaves only the comparison of `last_opened_at` with the
literal string `"$first_opened_at"`, which a datetime or null always
satisfies, so that sub-condition is vacuously true. -/
def matchLowPriority (now_d cutoff_ms : ℤ) (r : PRec) : Bool :=
  (match r.priority_score with
    | some (some v) => decide (v ≤ 30)
    | _ => false) ||
  (match r.published_date with
    | some p => decide (p < cutoff_ms)
    | none => false) ||
  r.content_extraction_failed ||
  (match r.component_scores with
    | some cs => decide (cs.readability ≤ 3)
    | none => false) ||
  (match r.component_scores with
    | some cs => decide (cs.information_density ≤ 3)
    | none => false) ||
  (match r.component_scores with
    | some cs => decide (cs.topic_relevance ≤ 3)
    | none => false) ||
  (match r.content with
    | none => true
    | some s => decide (s = "" ∨ s = "<html>" ∨ s = "<body>")) ||
  (match r.word_count with
    | some w => decide (w < 300)
    | none => false) ||
  ((match r.saved_at with
    | some sv => decide (sv < now_d - 180)
    | none => false) && decide (r.first_opened_at = none)) ||
  (match r.last_opened_at with
    | some lo => decide (lo < now_d - 365)
    | none => false) ||
  ((match r.reading_progress with
    | some pr => decide (pr < 2/10)
    | none => false) && decide (r.first_opened_at ≠ none) && true) ||
  (decide (r.title = none) || decide (r.title = some ("")) ||
    decide (r.author = none) || decide (r.author = some ("")) ||
    decide (r.url = none) || decide (r.url = some (""))) ||
  (decide (r.tags = none) || decide (r.tags = some []))

/-- The output shape of `format_prioritized_articles` restricted to the
fields the reason tagging reads (`priority_score` defaulted per the
format step). -/
structure FormattedArticle where
  oid : ℕ
  priority_score : ℚ
  component_scores : Option ComponentScores
  published_date : Option ℤ
  content_extraction_failed : Bool
  content : Option String
  saved_at : Option ℤ
  first_opened_at : Option ℤ
  last_opened_at : Option ℤ
  reading_progress : Option ℚ
  title : Option String
  author : Option String
  url : Option String
deriving DecidableEq, Repr

def formatOf (r : PRec) (ps : ℚ) (cs : Option ComponentScores) : FormattedArticle :=
  { oid := r.oid, priority_score := ps, component_scores := cs,
    published_date := r.published_date,
    content_extraction_failed := r.content_extraction_failed,
    content := r.content, saved_at := r.saved_at,
    first_opened_at := r.first_opened_at, last_opened_at := r.last_opened_at,
    reading_progress := r.reading_progress, title := r.title,
    author := r.author, url := r.url }

def fpsLe (a b : FormattedArticle) : Prop := a.priority_score ≤ b.priority_score

instance : DecidableRel fpsLe := fun a b => by unfold fpsLe; infer_instance

instance : IsTotal FormattedArticle fpsLe := ⟨fun _ _ => le_total _ _⟩

instance : IsTrans FormattedArticle fpsLe := ⟨fun _ _ _ => le_trans⟩

/-- The reason-tagging loop: each predicate contributes one reason tag to
the response article (never to the persisted record). -/
def archive_reasons (now_d cutoff_ms : ℤ) (a : FormattedArticle) : List String :=
  (if a.priority_score ≤ 30 then ["low_priority_score"] else []) ++
  (if (match a.published_date with
      | some p => decide (p ≠ 0) && decide (p < cutoff_ms)
      | none => false) then ["old_publication_date"] else []) ++
  (if a.content_extraction_failed || !(pyTruthy a.content) then
    ["content_extraction_failed"] else []) ++
  (if (match a.component_scores with
      | some cs => decide (cs.readability ≤ 3)
      | none => false) then ["low_readability"] else []) ++
  (if (match a.component_scores with
      | some cs => decide (cs.information_density ≤ 3)
      | none => false) then ["low_information_density"] else []) ++
  (if (match a.component_scores with
      | some cs => decide (cs.topic_relevance ≤ 3)
      | none => false) then ["low_topic_relevance"] else []) ++
  (if (match a.saved_at with
      | some sv => decide (a.first_opened_at = none) && decide (180 < now_d - sv)
      | none => false) then ["long_term_neglect"] else []) ++
  (if (match a.last_opened_at with
      | some lo => decide (365 < now_d - lo)
      | none => false) then ["stale_interest"] else []) ++
  (if (match a.reading_progress with
      | some pr => decide (pr < 2/10) && decide (a.first_opened_at ≠ none)
          && decide (a.last_opened_at ≠ none)
          && decide (a.first_opened_at ≠ a.last_opened_at)
      | none => false) then ["abandoned_reading"] else []) ++
  (if !(pyTruthy a.title) || !(pyTruthy a.author) || !(pyTruthy a.url) then
    ["missing_critical_metadata"] else [])

/-- `get_low_priority_articles`: match the archive-candidate battery, sort
ascending by priority score and take `2·limit`; split into already-scored
and unscored; for the unscored, extract content (`extractRes`, opaque), run
the five analyzers (`mRead` reused from a stored bundle when present,
`mDens`, `mTopic`, `mFresh`, `mEng` opaque), compute priority scores and
**persist them** via `save_prioritization_results`; finally format, tag
reasons and return the first `limit` response articles together with the
resulting collection. -/
def get_low_priority_articles (now_d cutoff_ms now_ts : ℤ) (limit : ℕ)
    (extractRes : PRec → Option String)
    (mRead mDens mTopic mFresh mEng : PRec → String → ℚ)
    (coll : List PRec) :
    List PRec × List (FormattedArticle × List String) :=
  let articles := (List.insertionSort psLe
    (coll.filter (matchLowPriority now_d cutoff_ms))).take (limit * 2)
  let scored := articles.filter (fun a => a.hasNonNullScore)
  let unscored := articles.filter (fun a => !a.hasNonNullScore)
  let processed := unscored.filter (fun a => (extractRes a).isSome)
  let prioritized := processed.map (fun a =>
    let c := (extractRes a).getD ""
    let comps : ComponentScores :=
      { quality := 7,
        information_density := mDens a c,
        readability := (match a.readability with
          | some s => s
          | none => mRead a c),
        topic_relevance := mTopic a c,
        freshness := mFresh a c,
        engagement_potential := mEng a c }
    (a, comps,
      pyRound1 ((allComponents.map (fun k => comps.get k * COMPONENT_WEIGHTS k)).sum
        * 10)))
  let newColl := coll.map (fun r =>
    match prioritized.find? (fun t => t.1.oid = r.oid) with
    | some t =>
      { r with
        priority_score := some (some t.2.2),
        component_scores := some t.2.1,
        priority_score_updated_at := some now_ts,
        readability := some t.2.1.readability }
    | none => r)
  let formatted := List.insertionSort fpsLe
    ((scored.map (fun a => formatOf a ((a.priority_score.getD none).getD 0)
        a.component_scores))
      ++ prioritized.map (fun t => formatOf t.1 t.2.2 (some t.2.1)))
  (newColl, (formatted.map (fun a => (a, archive_reasons now_d cutoff_ms a))).take limit)

end low_priority

/-- C9 counterexample: one persisted record matching the archive battery
(word count 100 < 300) with no stored priority score and extractable
content.  Invoking the low-priority endpoint persists a freshly computed
priority score for it, so the collection after the invocation differs from
the collection before — the claim that no persisted record is ever mutated
is false. -/
theorem low_priority_endpoint_mutates :
    low_priority.matchLowPriority 1000 500
      ⟨1, 1, none, none, none, none, none, false, some ("text"), some 100,
        none, none, none, none, some ("T"), some ("A"), some ("U"),
        some [("x")]⟩ = true ∧
    (low_priority.get_low_priority_articles 1000 500 999 10
      (fun _ => some ("text")) (fun _ _ => 5) (fun _ _ => 5) (fun _ _ => 5)
      (fun _ _ => 5) (fun _ _ => 5)
      [⟨1, 1, none, none, none, none, none, false, some ("text"), some 100,
        none, none, none, none, some ("T"), some ("A"), some ("U"),
        some [("x")]⟩]).1
      ≠ [⟨1, 1, none, none, none, none, none, false, some ("text"), some 100,
        none, none, none, none, some ("T"), some ("A"), some ("U"),
        some [("x")]⟩] := by
  constructor
  · decide
  · decide

/-- C9 (amended): the reason tagging of the low-priority endpoint writes
only to the response; the persisted collection is mutated solely by the
score persistence for matched articles lacking a non-null priority score —
whenever every matched article already carries one, the collection is
unchanged by the invocation. -/
theorem low_priority_no_mutation_when_scored (now_d cutoff_ms now_ts : ℤ)
    (limit : ℕ) (extractRes : PRec → Option String)
    (mRead mDens mTopic mFresh mEng : PRec → String → ℚ) (coll : List PRec)
    (hall : ∀ r ∈ coll, low_priority.matchLowPriority now_d cutoff_ms r = true →
      r.hasNonNullScore = true) :
    (low_priority.get_low_priority_articles now_d cutoff_ms now_ts limit
      extractRes mRead mDens mTopic mFresh mEng coll).1 = coll := by
  unfold low_priority.get_low_priority_articles
  simp only
  have hunscored : ((List.insertionSort psLe
      (coll.filter (low_priority.matchLowPriority now_d cutoff_ms))).take
        (limit * 2)).filter (fun a => !a.hasNonNullScore) = [] := by
    rw [List.filter_eq_nil_iff]
    intro a ha
    have hamem : a ∈ coll.filter (low_priority.matchLowPriority now_d cutoff_ms) :=
      (List.mem_insertionSort psLe).mp (List.take_subset _ _ ha)
    have h1 := List.mem_filter.mp hamem
    have h2 := hall a h1.1 h1.2
    simp [h2]
  rw [hunscored]
  simp

/-- Witness for the amended C9 theorem: a matched record that already has a
score 20.0 — the collection is returned unchanged. -/
theorem low_priority_no_mutation_witness :
    (low_priority.get_low_priority_articles 1000 500 999 10
      (fun _ => some ("text")) (fun _ _ => 5) (fun _ _ => 5) (fun _ _ => 5)
      (fun _ _ => 5) (fun _ _ => 5)
      [⟨1, 1, some (some 20), none, none, none, none, false, some ("text"),
        some 100, none, none, none, none, some ("T"), some ("A"), some ("U"),
        some [("x")]⟩]).1
      = [⟨1, 1, some (some 20), none, none, none, none, false, some ("text"),
        some 100, none, none, none, none, some ("T"), some ("A"), some ("U"),
        some [("x")]⟩] :=
  low_priority_no_mutation_when_scored 1000 500 999 10
    (fun _ => some ("text")) (fun _ _ => 5) (fun _ _ => 5) (fun _ _ => 5)
    (fun _ _ => 5) (fun _ _ => 5) _
    (fun r hr _ => by
      rcases List.mem_singleton.mp hr with rfl
      rfl)
